import Mathlib

/-!
Verification development for the watcher-daemon rule engine.

This file shallowly embeds the deterministic core of the repository:
the intent extractor (src/rules/intent.ts), the rule engine's filter and
threshold evaluation (src/rules/RuleEngine.ts), the rule validator
(src/rules/RuleValidator.ts), the compiler alignment pass
(src/rules/RuleCompiler.ts), and the rule store's normalization,
signatures, update restrictions and save queue (dist/rules/RuleStore.js).

Machine numbers are modelled as Nat (all quantities involved are
non-negative integers in every code path exercised by the theorems);
JavaScript strings are Lean Strings restricted to the ASCII fragment the
code manipulates.
-/

namespace Watcher

/-- EventType from src/rules/types.ts: 'created' | 'modified' | 'deleted'. -/
inductive EventType where
  | created
  | modified
  | deleted
deriving DecidableEq, Repr

/-- The runtime string of an EventType value (the TS union members are strings). -/
def EventType.str : EventType → String
  | .created => "created"
  | .modified => "modified"
  | .deleted => "deleted"

/-- RuleType from src/rules/types.ts: 'pattern' | 'threshold'. -/
inductive RuleType where
  | pattern
  | threshold
deriving DecidableEq, Repr

/-- The runtime string of a RuleType value. -/
def RuleType.str : RuleType → String
  | .pattern => "pattern"
  | .threshold => "threshold"

/-- MatchFilter from src/rules/types.ts.  All four fields are optional
arrays; `none` models an absent (undefined) field. -/
structure MatchFilter where
  pathIncludes : Option (List String) := none
  pathExcludes : Option (List String) := none
  extensions : Option (List String) := none
  eventTypes : Option (List EventType) := none
deriving DecidableEq, Repr

/-- FileEvent from src/watcher/types.ts. -/
structure FileEvent where
  type : EventType
  path : String
  timestamp : Nat
deriving DecidableEq, Repr

/-- Rule source tag: 'llm' | 'manual'. -/
inductive RuleSource where
  | llm
  | manual
deriving DecidableEq, Repr

/-- Persisted Rule from src/rules/types.ts.  `windowSeconds`/`count` are
optional at the type level (present exactly on threshold rules per the
data-model invariant); `action` is the fixed string 'notify'. -/
structure Rule where
  id : String
  name : String
  description : String
  enabled : Bool
  createdAt : Nat
  lastMatched : Option Nat := none
  matchCount : Nat
  type : RuleType
  «match» : MatchFilter
  action : String := "notify"
  source : RuleSource
  originalCondition : Option String := none
  windowSeconds : Option Nat := none
  count : Option Nat := none
deriving DecidableEq, Repr

/-- CompiledRule from src/llm/types.ts. -/
structure CompiledRule where
  type : RuleType
  «match» : MatchFilter
  windowSeconds : Option Nat := none
  count : Option Nat := none
deriving DecidableEq, Repr

/-- RuleMatch from src/rules/types.ts (ephemeral match record). -/
structure RuleMatch where
  ruleId : String
  ruleName : String
  ruleType : RuleType
  timestamp : Nat
  summary : String
  reason : Option String := none
  path : Option String := none
  eventType : Option EventType := none
  count : Option Nat := none
  windowSeconds : Option Nat := none
deriving DecidableEq, Repr

/-- RuleIntent from src/rules/intent.ts. -/
structure RuleIntent where
  eventTypes : List EventType
  extensions : List String
  pathIncludes : List String
  count : Option Nat := none
  windowSeconds : Option Nat := none
deriving DecidableEq, Repr

/-- ValidationError from src/rules/RuleValidator.ts. -/
structure ValidationError where
  field : String
  message : String
deriving DecidableEq, Repr

/-- ValidationResult from src/rules/RuleValidator.ts. -/
structure ValidationResult where
  valid : Bool
  errors : List ValidationError
deriving DecidableEq, Repr

/-! ## String primitives

Models of the JavaScript string operations the code uses, on the ASCII
fragment that file paths, rule text and extensions are drawn from. -/

/-- JS `\w` word-character class: [A-Za-z0-9_]. -/
def isWordChar (c : Char) : Bool :=
  (('a' ≤ c && c ≤ 'z') || ('A' ≤ c && c ≤ 'Z') || ('0' ≤ c && c ≤ '9') || c = '_')

/-- Whitespace as matched by JS `\s` (ASCII fragment). -/
def isSpaceChar (c : Char) : Bool :=
  c = ' ' || c = '\t' || c = '\n' || c = '\r'

/-- ASCII decimal digit. -/
def isDigitChar (c : Char) : Bool :=
  '0' ≤ c && c ≤ '9'

/-- Model of `String.prototype.toLowerCase` on the ASCII fragment. -/
def jsLower (s : String) : String :=
  ⟨s.data.map Char.toLower⟩

/-- Model of `String.prototype.trim` (ASCII whitespace). -/
def jsTrim (s : String) : String :=
  ⟨((s.data.dropWhile isSpaceChar).reverse.dropWhile isSpaceChar).reverse⟩

/-- Char-list prefix test. -/
def charsPrefixOf : List Char → List Char → Bool
  | [], _ => true
  | _ :: _, [] => false
  | a :: as, b :: bs => a = b && charsPrefixOf as bs

/-- Char-list infix test (substring occurrence). -/
def charsInfixOf (needle : List Char) : List Char → Bool
  | [] => charsPrefixOf needle []
  | hay@(_ :: rest) => charsPrefixOf needle hay || charsInfixOf needle rest

/-- Model of `String.prototype.includes`: `needle` occurs contiguously in `hay`. -/
def strIncludes (hay needle : String) : Bool :=
  charsInfixOf needle.data hay.data

/-- Index of the last occurrence of `'.'` in a char list, if any. -/
def lastDotIdx (cs : List Char) : Option Nat :=
  (cs.enum.filter (fun p => p.2 = '.')).getLast?.map Prod.fst

/-- The final path component: the characters after the last `'/'`.
Paths delivered by the watcher are forward-slash normalized (spec §3). -/
def lastComponent (cs : List Char) : List Char :=
  cs.foldl (fun acc c => if c = '/' then [] else acc ++ [c]) []

/-- Model of Node `path.extname` on forward-slash paths: the substring of
the basename from its last `'.'`, except that a dot in first position
(dotfile) and the special basename ".." yield the empty string. -/
def extname (p : String) : String :=
  let base := lastComponent p.data
  if base = ['.', '.'] then ""
  else
    match lastDotIdx base with
    | none => ""
    | some 0 => ""
    | some i => ⟨base.drop i⟩

/-- Worker for `dedupFirst`: `seen` holds the elements already emitted. -/
def dedupFirstAux {α : Type} [DecidableEq α] : List α → List α → List α
  | _, [] => []
  | seen, x :: xs =>
    if x ∈ seen then dedupFirstAux seen xs else x :: dedupFirstAux (x :: seen) xs

/-- Deduplication keeping the first occurrence of each element, the
insertion-order semantics of a JS `Set` read back with `Array.from`. -/
def dedupFirst {α : Type} [DecidableEq α] (l : List α) : List α :=
  dedupFirstAux [] l

/-! ## A small backtracking regex interpreter

The intent extractor (src/rules/intent.ts) is written against JavaScript
regular expressions.  The patterns it uses fall into a small fragment:
literals, greedy character classes with a repetition range, ordered
alternation, and word boundaries.  `matchSeq` interprets that fragment
with JavaScript's leftmost, ordered, greedy-with-backtracking semantics;
each source regex is transcribed alternative-for-alternative below. -/

/-- One item of a regex pattern.  The Bool on `lit` and `cls` marks a
capturing position: matched text is appended to the capture list. -/
inductive RE where
  | lit : List Char → Bool → RE
  | cls : (Char → Bool) → Nat → Option Nat → Bool → RE
  | alt : List (List RE) → RE
  | wb : RE

/-- Word-character test of an optional character; string edges count as
non-word, as in JS `\b`. -/
def isWordOpt : Option Char → Bool
  | none => false
  | some c => isWordChar c

/-- JS `\b`: the word-ness of the previous and next characters differ. -/
def isBoundary (prev : Option Char) (input : List Char) : Bool :=
  isWordOpt prev != isWordOpt input.head?

/-- Descending list hi, hi-1, ..., mn (empty when mn > hi): the order a
greedy repetition explores its counts under backtracking. -/
def descRange (hi mn : Nat) : List Nat :=
  (List.range' mn (hi + 1 - mn)).reverse

/-- Backtracking matcher for a pattern anchored at the current position.
Returns the captures, the remaining input and the character preceding it.
The fuel only bounds recursion depth; it is never exhausted for the
patterns and inputs this file evaluates. -/
def matchSeq : Nat → List RE → List Char → Option Char → List (List Char) →
    Option (List (List Char) × List Char × Option Char)
  | 0, _, _, _, _ => none
  | _ + 1, [], input, prev, caps => some (caps, input, prev)
  | fuel + 1, RE.wb :: rest, input, prev, caps =>
      if isBoundary prev input then matchSeq fuel rest input prev caps else none
  | fuel + 1, RE.lit s cap :: rest, input, prev, caps =>
      if charsPrefixOf s input then
        matchSeq fuel rest (input.drop s.length)
          (if s.isEmpty then prev else s.getLast?)
          (if cap then caps ++ [s] else caps)
      else none
  | fuel + 1, RE.alt alts :: rest, input, prev, caps =>
      alts.findSome? (fun seq => matchSeq fuel (seq ++ rest) input prev caps)
  | fuel + 1, RE.cls p mn mx cap :: rest, input, prev, caps =>
      let run := input.takeWhile p
      let hi := min (mx.getD run.length) run.length
      (descRange hi mn).findSome? (fun k =>
        matchSeq fuel rest (input.drop k)
          (if k = 0 then prev else (input.take k).getLast?)
          (if cap then caps ++ [input.take k] else caps))

/-- Fuel bound used for every concrete evaluation in this file. -/
def FUEL : Nat := 1000

/-- Leftmost match: try the pattern at each successive position, as a JS
regex `exec` does, threading the previous character for `\b`. -/
def reFindAux (pat : List RE) :
    List Char → Option Char → Option (List (List Char) × List Char × Option Char)
  | [], prev => matchSeq FUEL pat [] prev []
  | c :: rest, prev =>
    match matchSeq FUEL pat (c :: rest) prev [] with
    | some r => some r
    | none => reFindAux pat rest (some c)

/-- All matches in order (JS `matchAll` on a /g regex), collecting each
match's capture list.  Every pattern used in this file consumes at least
one character per match, so the zero-width guard never cuts a scan short. -/
def reScanAll (pat : List RE) : Nat → List Char → Option Char → List (List (List Char))
  | 0, _, _ => []
  | fuel + 1, input, prev =>
    match reFindAux pat input prev with
    | none => []
    | some (caps, rest, prevA) =>
      if rest.length < input.length then caps :: reScanAll pat fuel rest prevA
      else [caps]

/-- Scan a whole input for all matches of a /g pattern. -/
def reScan (pat : List RE) (cs : List Char) : List (List (List Char)) :=
  reScanAll pat (cs.length + 1) cs none

/-- Captures of the first match, if any (JS `text.match(pattern)`). -/
def reFirst (pat : List RE) (cs : List Char) : Option (List (List Char)) :=
  (reFindAux pat cs none).map (fun r => r.1)

/-- Does the pattern match anywhere (JS `pattern.test(text)`). -/
def reTest (pat : List RE) (cs : List Char) : Bool :=
  (reFindAux pat cs none).isSome

/-- Non-capturing literal. -/
def lit (s : String) : RE := RE.lit s.data false

/-- Capturing literal (used to reassemble the window-unit capture group). -/
def litc (s : String) : RE := RE.lit s.data true

/-- `\s+` -/
def ws1 : RE := RE.cls isSpaceChar 1 none false

/-- `\s*` -/
def ws0 : RE := RE.cls isSpaceChar 0 none false

/-- `(\d+)` -/
def digits : RE := RE.cls isDigitChar 1 none true

/-- `\b` -/
def wb : RE := RE.wb

/-! ## Intent extraction (src/rules/intent.ts) -/

/-- Canonical event order from intent.ts: EVENT_ORDER. -/
def EVENT_ORDER : List EventType := [.created, .modified, .deleted]

/-- Alternatives of `/\b(delete|deleted|deleting|remove|removed|unlink)\b/`. -/
def deleteWords : List String := ["delete", "deleted", "deleting", "remove", "removed", "unlink"]

/-- Alternatives of `/\b(create|created|creating|creates|add|added|new)\b/`. -/
def createWords : List String := ["create", "created", "creating", "creates", "add", "added", "new"]

/-- Alternatives of the modify-synonym regex in extractIntent. -/
def modifyWords : List String :=
  ["modify", "modified", "modifying", "update", "updated", "updating", "edit", "edited", "editing"]

/-- Alternatives of `/\b(change|changed|changes|changing)\b/`. -/
def changeWords : List String := ["change", "changed", "changes", "changing"]

/-- `\b(w1|w2|...)\b` -/
def wordAltPattern (ws : List String) : List RE :=
  [wb, RE.alt (ws.map (fun w => [lit w])), wb]

/-- Test of the delete-synonym regex on the lowercased condition text. -/
def sawDelete (text : List Char) : Bool := reTest (wordAltPattern deleteWords) text

/-- Test of the create-synonym regex. -/
def sawCreate (text : List Char) : Bool := reTest (wordAltPattern createWords) text

/-- Test of the modify-synonym regex. -/
def sawModify (text : List Char) : Bool := reTest (wordAltPattern modifyWords) text

/-- Test of the generic change-synonym regex. -/
def sawChange (text : List Char) : Bool := reTest (wordAltPattern changeWords) text

/-- JS `Set.add` on the event-type set (insertion order preserved). -/
def addEvt (s : List EventType) (e : EventType) : List EventType :=
  if s.contains e then s else s ++ [e]

/-- The event-type set extractIntent builds from the four keyword-class
tests, exactly following the branch structure of the source. -/
def eventTypeSet (sawDel sawCre sawMod sawChg : Bool) : List EventType :=
  let evset : List EventType := []
  let evset := if sawDel then addEvt evset .deleted else evset
  let evset := if sawCre then addEvt evset .created else evset
  let evset := if sawMod then addEvt evset .modified else evset
  if sawChg then
    if !sawDel && !sawCre && !sawMod then addEvt (addEvt evset .created) .modified
    else if !(evset.contains .modified) then addEvt evset .modified
    else evset
  else evset

/-- `[a-z0-9]`, the class of `/\.[a-z0-9]{1,6}\b/`. -/
def isExtChar (c : Char) : Bool := ('a' ≤ c && c ≤ 'z') || ('0' ≤ c && c ≤ '9')

/-- `/\.[a-z0-9]{1,6}\b/g` — the capture is the class run after the dot. -/
def extensionPattern : List RE := [lit ".", RE.cls isExtChar 1 (some 6) true, wb]

/-- LANGUAGE_MATCHERS together with the LANGUAGE_EXTENSIONS lookup they
index, in the source's fixed priority order. -/
def LANGUAGE_MATCHERS : List (String × List String) :=
  [("typescript", [".ts", ".tsx"]), ("javascript", [".js", ".jsx"]), ("python", [".py"]),
   ("markdown", [".md", ".markdown"]), ("json", [".json"]), ("yaml", [".yml", ".yaml"]),
   ("yml", [".yml", ".yaml"]), ("html", [".html", ".htm"]), ("css", [".css"]), ("text", [".txt"]),
   ("csv", [".csv"]), ("java", [".java"]), ("rust", [".rs"]), ("go", [".go"]),
   ("kotlin", [".kt", ".kts"]), ("csharp", [".cs"]), ("c#", [".cs"]),
   ("cplusplus", [".cpp", ".hpp", ".h"]), ("c++", [".cpp", ".hpp", ".h"]), ("c", [".c", ".h"])]

/-- `[a-z0-9_.-]` (the /i flag is immaterial: extractIntent lowercases
its input before matching). -/
def isPathChar (c : Char) : Bool :=
  ('a' ≤ c && c ≤ 'z') || ('0' ≤ c && c ≤ '9') || c = '_' || c = '.' || c = '-'

/-- `[\\/]` as a capturing single-character class. -/
def slashCls : RE := RE.cls (fun c => c = '\\' || c = '/') 1 (some 1) true

/-- `/([a-z0-9_.-]+[\\/])/gi` — the two captures concatenate to match[1]. -/
def pathTokenPattern : List RE := [RE.cls isPathChar 1 none true, slashCls]

/-- `/\b(in|from|under|inside|within)\s+(?:the|a|an)?\s*([a-z0-9_.-]+)\b/gi`
(only group 2, the captured word, is used by the source). -/
def phrasePattern : List RE :=
  [wb,
   RE.alt [[lit "in"], [lit "from"], [lit "under"], [lit "inside"], [lit "within"]],
   ws1,
   RE.alt [[lit "the"], [lit "a"], [lit "an"], []],
   ws0,
   RE.cls isPathChar 1 none true,
   wb]

/-- `s?` -/
def sOpt : RE := RE.alt [[lit "s"], []]

/-- `\b(?:at\s+least|no\s+less\s+than|>=)\s*(\d+)\b` -/
def countPattern1 : List RE :=
  [wb,
   RE.alt [[lit "at", ws1, lit "least"], [lit "no", ws1, lit "less", ws1, lit "than"], [lit ">="]],
   ws0, digits, wb]

/-- `\b(\d+)\s*(?:or\s+more|or\s+greater|or\s+above|or\s+over|\+)\s*(?:files?|events?|changes?|times?)?\b` -/
def countPattern2 : List RE :=
  [wb, digits, ws0,
   RE.alt [[lit "or", ws1, lit "more"], [lit "or", ws1, lit "greater"],
           [lit "or", ws1, lit "above"], [lit "or", ws1, lit "over"], [lit "+"]],
   ws0,
   RE.alt [[lit "file", sOpt], [lit "event", sOpt], [lit "change", sOpt], [lit "time", sOpt], []],
   wb]

/-- `\b(\d+)\s+(?:files?|events?|changes?)\b` -/
def countPattern3 : List RE :=
  [wb, digits, ws1,
   RE.alt [[lit "file", sOpt], [lit "event", sOpt], [lit "change", sOpt]],
   wb]

/-- `s?` with the matched text contributing to the unit capture. -/
def sOptc : RE := RE.alt [[litc "s"], []]

/-- `(seconds?|secs?|minutes?|mins?|hours?|hrs?)`: the concatenation of
the flagged captures reassembles match[2]. -/
def windowUnitAlt : RE :=
  RE.alt [[litc "second", sOptc], [litc "sec", sOptc], [litc "minute", sOptc],
          [litc "min", sOptc], [litc "hour", sOptc], [litc "hr", sOptc]]

/-- `\b(?:within|in|over|during|for)\s+(\d+)\s*(seconds?|secs?|minutes?|mins?|hours?|hrs?)\b` -/
def windowPattern : List RE :=
  [wb,
   RE.alt [[lit "within"], [lit "in"], [lit "over"], [lit "during"], [lit "for"]],
   ws1, digits, ws0, windowUnitAlt, wb]

/-- Decimal value of a digit run (`Number(match[1])` on a `\d+` capture). -/
def digitsToNat (cs : List Char) : Nat :=
  cs.foldl (fun acc c => acc * 10 + (c.toNat - '0'.toNat)) 0

/-- parseThresholdCount from intent.ts: first pattern family whose match
carries a positive count wins. -/
def parseThresholdCount (text : List Char) : Option Nat :=
  [countPattern1, countPattern2, countPattern3].findSome? (fun pat =>
    match reFirst pat text with
    | none => none
    | some caps =>
      match caps.head? with
      | none => none
      | some d =>
        let count := digitsToNat d
        if 0 < count then some count else none)

/-- parseWindowSeconds from intent.ts: hours scale by 3600, minutes by
60, seconds pass through; a non-positive value is discarded. -/
def parseWindowSeconds (text : List Char) : Option Nat :=
  match reFirst windowPattern text with
  | none => none
  | some [] => none
  | some (d :: unitParts) =>
    let value := digitsToNat d
    if value = 0 then none
    else
      let unit : List Char := unitParts.foldl (· ++ ·) []
      if charsPrefixOf "hour".data unit || charsPrefixOf "hr".data unit then some (value * 3600)
      else if charsPrefixOf "min".data unit then some (value * 60)
      else some value

/-- STOPWORDS set from intent.ts. -/
def STOPWORDS : List String :=
  ["the", "a", "an", "this", "that", "these", "those", "inside", "within", "under", "from",
   "in", "on", "at", "to", "of", "for", "with", "without", "folder", "directory", "dir",
   "root", "path", "file", "files", "any"]

/-- isStopwordToken from intent.ts: strip trailing slashes, lowercase;
empty and purely numeric tokens count as stopwords. -/
def isStopwordToken (token : List Char) : Bool :=
  let cleaned := (jsLower ⟨(token.reverse.dropWhile (fun c => c = '\\' || c = '/')).reverse⟩).data
  if cleaned.isEmpty then true
  else if cleaned.all isDigitChar then true
  else STOPWORDS.contains (⟨cleaned⟩ : String)

/-- normalizePathToken from intent.ts: backslashes become slashes and a
trailing slash is ensured. -/
def normalizePathToken (token : List Char) : List Char :=
  let normalized := token.map (fun c => if c = '\\' then '/' else c)
  if normalized.getLast? = some '/' then normalized else normalized ++ ['/']

/-- extractIntent from intent.ts, assembled from the passes above. -/
def extractIntent (condition : String) : RuleIntent :=
  let text := (jsLower condition).data
  let sawDel := sawDelete text
  let sawCre := sawCreate text
  let sawMod := sawModify text
  let sawChg := sawChange text
  let evset := eventTypeSet sawDel sawCre sawMod sawChg
  let extTokens := (reScan extensionPattern text).filterMap (fun caps =>
    (caps.head?).map (fun run => '.' :: run))
  let exts := dedupFirst extTokens
  let exts :=
    if exts.isEmpty then
      dedupFirst (LANGUAGE_MATCHERS.foldl (fun acc kv =>
        if reTest [wb, lit kv.1, wb] text then acc ++ kv.2.map String.data else acc) [])
    else exts
  let tokens1 := (reScan pathTokenPattern text).filterMap (fun caps =>
    match caps with
    | [run, slash] => some (run ++ slash)
    | _ => none)
  let tokens2 := (reScan phrasePattern text).filterMap (fun caps => caps.head?)
  let paths := dedupFirst
    ((tokens1.filter (fun t => !isStopwordToken t)).map normalizePathToken ++
     (tokens2.filter (fun t => !isStopwordToken t)).map normalizePathToken)
  { eventTypes := EVENT_ORDER.filter (fun e => evset.contains e),
    extensions := exts.map (fun cs => (⟨cs⟩ : String)),
    pathIncludes := paths.map (fun cs => (⟨cs⟩ : String)),
    count := parseThresholdCount text,
    windowSeconds := parseWindowSeconds text }

/-! ## Rule engine (src/rules/RuleEngine.ts) -/

/-- RuleEngine.matchesFilter: excludes veto, then includes / extensions /
eventTypes must each admit the event when the corresponding array is
present and non-empty.  An absent field and an empty array behave
identically here, so both are modelled through `Option.getD []`. -/
def matchesFilter (event : FileEvent) (m : MatchFilter) : Bool :=
  let normalizedPath := jsLower event.path
  let excluded := (m.pathExcludes.getD []).any (fun exc => strIncludes normalizedPath (jsLower exc))
  if excluded then false
  else
    let incs := m.pathIncludes.getD []
    if incs.length > 0 && !(incs.any (fun inc => strIncludes normalizedPath (jsLower inc))) then false
    else
      let exts := m.extensions.getD []
      if exts.length > 0 && !((exts.map jsLower).contains (jsLower (extname event.path))) then false
      else
        let evts := m.eventTypes.getD []
        if evts.length > 0 && !(evts.contains event.type) then false
        else true

/-- RuleEngine.describeFilter: human summary of the constrained filter
dimensions, joined with " and ", defaulting to "events". -/
def describeFilter (m : MatchFilter) : String :=
  let parts : List String :=
    (if (m.extensions.getD []).length > 0 then
      ["files with " ++ String.intercalate ", " (m.extensions.getD [])] else []) ++
    (if (m.pathIncludes.getD []).length > 0 then
      ["paths including " ++ String.intercalate ", " (m.pathIncludes.getD [])] else []) ++
    (if (m.eventTypes.getD []).length > 0 then
      ["events " ++ String.intercalate ", " ((m.eventTypes.getD []).map EventType.str)] else [])
  if parts.length = 0 then "events" else String.intercalate " and " parts

/-- RuleEngine.evaluateRule.  `now` is the Date.now() reading taken in the
threshold branch (and used as the match timestamp), `window` the entry of
thresholdWindows for this rule.  The second component is `some w` exactly
when the source assigns a new window list to the map (threshold rule whose
filter matched), and `none` when the map entry is left untouched. -/
def evaluateRule (now : Nat) (event : FileEvent) (rule : Rule) (window : List Nat) :
    Option RuleMatch × Option (List Nat) :=
  if !matchesFilter event rule.«match» then (none, none)
  else
    match rule.type with
    | .pattern =>
      let reason := "File " ++ event.path ++ " was " ++ event.type.str
      (some { ruleId := rule.id, ruleName := rule.name, ruleType := rule.type,
              timestamp := now, summary := reason, reason := some reason,
              path := some event.path, eventType := some event.type }, none)
    | .threshold =>
      let windowMs := rule.windowSeconds.getD 0 * 1000
      let timestamps := window ++ [now]
      let filtered := timestamps.filter (fun t => now - t ≤ windowMs)
      if rule.count.getD 0 ≤ filtered.length then
        let reason := toString filtered.length ++ " " ++ describeFilter rule.«match» ++
          " in the last " ++ toString (rule.windowSeconds.getD 0) ++ "s (threshold: " ++
          toString (rule.count.getD 0) ++ ")"
        (some { ruleId := rule.id, ruleName := rule.name, ruleType := rule.type,
                timestamp := now, summary := reason, reason := some reason,
                count := some filtered.length, windowSeconds := rule.windowSeconds }, some [])
      else (none, some filtered)

/-- Engine statistics (EngineStats in RuleEngine.ts). -/
structure EngineStats where
  eventsObserved : Nat
  rulesEvaluated : Nat
  «matches» : Nat
deriving DecidableEq, Repr

/-- The mutable state evaluateEvent touches: engine statistics, the
bounded recent-match buffer, the per-rule threshold windows, and the
store's rule list (through recordMatch). -/
structure EngineState where
  stats : EngineStats
  recentMatches : List RuleMatch
  thresholdWindows : List (String × List Nat)
  rules : List Rule
deriving DecidableEq, Repr

/-- `thresholdWindows.get(id) || []` on the association-list model of the Map. -/
def windowsGet (ws : List (String × List Nat)) (id : String) : List Nat :=
  ((ws.find? (fun p => p.1 = id)).map Prod.snd).getD []

/-- `thresholdWindows.set(id, w)`: replace the entry or append a new one. -/
def windowsSet (ws : List (String × List Nat)) (id : String) (w : List Nat) :
    List (String × List Nat) :=
  if ws.any (fun p => p.1 = id) then ws.map (fun p => if p.1 = id then (p.1, w) else p)
  else ws ++ [(id, w)]

/-- RuleStore.recordMatch: bump matchCount and stamp lastMatched on the
rule with the given id (the asynchronous save is outside this model). -/
def recordMatchStore (rules : List Rule) (ruleId : String) (now : Nat) : List Rule :=
  rules.map (fun r =>
    if r.id = ruleId then { r with matchCount := r.matchCount + 1, lastMatched := some now } else r)

/-- RuleEngine.recordMatch: push into the ring buffer, evicting the oldest
entry past the limit. -/
def recordMatchRing (recent : List RuleMatch) (limit : Nat) (m : RuleMatch) : List RuleMatch :=
  let pushed := recent ++ [m]
  if limit < pushed.length then pushed.drop 1 else pushed

/-- The per-rule body of the evaluateEvent loop. -/
def evalRuleStep (limit : Nat) (now : Nat) (event : FileEvent)
    (acc : EngineState × List RuleMatch) (rule : Rule) : EngineState × List RuleMatch :=
  let (st, ms) := acc
  let (res, w) := evaluateRule now event rule (windowsGet st.thresholdWindows rule.id)
  let st :=
    match w with
    | none => st
    | some w => { st with thresholdWindows := windowsSet st.thresholdWindows rule.id w }
  match res with
  | none => (st, ms)
  | some m =>
    ({ st with
        stats := { st.stats with «matches» := st.stats.«matches» + 1 },
        rules := recordMatchStore st.rules rule.id now,
        recentMatches := recordMatchRing st.recentMatches limit m },
     ms ++ [m])

/-- RuleEngine.evaluateEvent.  `validate` is the SecurityValidator's
verdict on the event path resolved against the watch directory (an
oracle, since validateFilePath consults the filesystem); `limit` is
recentMatchLimit; `now` the Date.now() reading. -/
def evaluateEvent (validate : String → Bool) (limit : Nat) (now : Nat)
    (st : EngineState) (event : FileEvent) : EngineState × List RuleMatch :=
  let st := { st with stats := { st.stats with eventsObserved := st.stats.eventsObserved + 1 } }
  if !validate event.path then (st, [])
  else
    let enabled := st.rules.filter (fun r => r.enabled)
    let st := { st with stats := { st.stats with rulesEvaluated := st.stats.rulesEvaluated + enabled.length } }
    enabled.foldl (evalRuleStep limit now event) (st, [])

/-! ## Rule store (dist/rules/RuleStore.js): normalization, signatures,
updates, and the save queue -/

/-- RuleStore.normalizeArray: trim and lowercase each entry, drop empties,
collapse to `undefined` when nothing remains, else dedupe and sort.  The
`localeCompare` comparator is modelled by the lexicographic order on the
already-lowercased ASCII strings: any strict total order produces the
same canonical form, which is all the signature depends on. -/
def normalizeArray (values : Option (List String)) : Option (List String) :=
  match values with
  | none => none
  | some vs =>
    let normalized := (vs.map (fun v => jsLower (jsTrim v))).filter (fun v => v.length > 0)
    if normalized.length = 0 then none
    else some (List.insertionSort (· ≤ ·) (dedupFirst normalized))

/-- JSON string literal (the signature entries contain no characters that
JSON.stringify escapes). -/
def jsonStr (s : String) : String := "\"" ++ s ++ "\""

/-- JSON array of strings. -/
def jsonArr (xs : List String) : String :=
  "[" ++ String.intercalate "," (xs.map jsonStr) ++ "]"

/-- JSON rendering of an optional number (`x ?? null`). -/
def jsonNumOrNull : Option Nat → String
  | none => "null"
  | some n => toString n

/-- The `match` sub-object of the signature: each normalized array field
is emitted in declaration order, and an `undefined` field is omitted, as
JSON.stringify does. -/
def sigMatchJson (pi pe ex ev : Option (List String)) : String :=
  let fields : List String :=
    (match pi with | none => [] | some l => [jsonStr "pathIncludes" ++ ":" ++ jsonArr l]) ++
    (match pe with | none => [] | some l => [jsonStr "pathExcludes" ++ ":" ++ jsonArr l]) ++
    (match ex with | none => [] | some l => [jsonStr "extensions" ++ ":" ++ jsonArr l]) ++
    (match ev with | none => [] | some l => [jsonStr "eventTypes" ++ ":" ++ jsonArr l])
  "\x7b" ++ String.intercalate "," fields ++ "\x7d"

/-- RuleStore.ruleSignatureFromCompiled: JSON.stringify of the normalized
rule (type, normalized match arrays, windowSeconds ?? null, count ?? null)
with keys in insertion order. -/
def ruleSignatureFromCompiled (compiled : CompiledRule) : String :=
  let m := compiled.«match»
  "\x7b" ++ jsonStr "type" ++ ":" ++ jsonStr compiled.type.str ++ "," ++
  jsonStr "match" ++ ":" ++
    sigMatchJson (normalizeArray m.pathIncludes) (normalizeArray m.pathExcludes)
      (normalizeArray m.extensions)
      (normalizeArray (m.eventTypes.map (fun l => l.map EventType.str))) ++ "," ++
  jsonStr "windowSeconds" ++ ":" ++ jsonNumOrNull compiled.windowSeconds ++ "," ++
  jsonStr "count" ++ ":" ++ jsonNumOrNull compiled.count ++ "\x7d"

/-- The update payload accepted by RuleStore.updateRule: a Partial Rule.
`none` models an absent key.  Keys outside the allowed list (everything
below name/description/enabled) are representable but ignored by the
source, which is the point of claim C8. -/
structure RuleUpdates where
  name : Option String := none
  description : Option String := none
  enabled : Option Bool := none
  id : Option String := none
  createdAt : Option Nat := none
  lastMatched : Option Nat := none
  matchCount : Option Nat := none
  type : Option RuleType := none
  «match» : Option MatchFilter := none
  source : Option RuleSource := none
  originalCondition : Option String := none
  windowSeconds : Option Nat := none
  count : Option Nat := none
deriving Repr

/-- The per-rule assignment loop of RuleStore.updateRule: only the keys
in `allowed = ['name', 'description', 'enabled']` are copied. -/
def applyUpdates (r : Rule) (u : RuleUpdates) : Rule :=
  { r with
    name := u.name.getD r.name,
    description := u.description.getD r.description,
    enabled := u.enabled.getD r.enabled }

/-- RuleStore.updateRule on the in-memory rule list: the first rule with
the given id receives the allowed fields of the update. -/
def updateRule (rules : List Rule) (id : String) (u : RuleUpdates) : List Rule :=
  match rules with
  | [] => []
  | r :: rest => if r.id = id then applyUpdates r u :: rest else r :: updateRule rest id u

/-- Lifecycle of one queued save: pending until its predecessor settles,
then running, then settled with success or failure. -/
inductive JobStatus where
  | pending
  | running
  | settledOk
  | settledErr
deriving DecidableEq, Repr

/-- A settled save, successful or not: `previousSave = this.saveQueue
.catch(() => undefined)` makes both outcomes release the next save. -/
def isSettled : JobStatus → Bool
  | .settledOk => true
  | .settledErr => true
  | _ => false

/-- Transitions of the save queue of RuleStore.save.  The state lists the
status of every submitted save in submission order.  `submit` models a
call to save() chaining onto `this.saveQueue` (which is the promise of
the last submitted save); `start` models the promise runtime firing the
chained continuation, which it may do only once the predecessor has
settled — with either outcome, because of the `.catch`; `kSucc` makes the
first queued save (predecessor: the initially resolved `Promise.resolve()`)
immediately startable. -/
inductive QStep : List JobStatus → List JobStatus → Prop
  | submit (l : List JobStatus) : QStep l (l ++ [.pending])
  | start (l : List JobStatus) (k : Nat)
      (hpred : k = 0 ∨ ∃ s, l.get? (k - 1) = some s ∧ isSettled s = true)
      (hk : l.get? k = some .pending) :
      QStep l (l.set k .running)
  | finish (l : List JobStatus) (k : Nat) (ok : Bool)
      (hk : l.get? k = some .running) :
      QStep l (l.set k (if ok then .settledOk else .settledErr))

/-- States of the save queue reachable from an empty queue. -/
inductive QReach : List JobStatus → Prop
  | init : QReach []
  | step {l l' : List JobStatus} : QReach l → QStep l l' → QReach l'

/-! ## Rule validator (src/rules/RuleValidator.ts) -/

/-- Bounds from RuleValidator.ts. -/
def MIN_WINDOW_SECONDS : Nat := 10

/-- Bounds from RuleValidator.ts. -/
def MAX_WINDOW_SECONDS : Nat := 86400

/-- Bounds from RuleValidator.ts. -/
def MIN_THRESHOLD_COUNT : Nat := 1

/-- Bounds from RuleValidator.ts. -/
def MAX_THRESHOLD_COUNT : Nat := 1000

/-- validateMatchFilter.  In this typed embedding `match` is always an
object and the four fields are always string arrays, so the presence and
array-shape checks of the source can never fire; what remains observable
is the leading-dot check on extensions and the enum check on eventTypes
(the latter trivially passes for the typed EventType). -/
def validateMatchFilter (m : MatchFilter) : List ValidationError :=
  (m.extensions.getD []).filterMap (fun ext =>
    if !(ext.startsWith ".") then
      some { field := "extensions", message := "Extension \"" ++ ext ++ "\" must start with \".\"" }
    else none) ++
  (m.eventTypes.getD []).filterMap (fun et =>
    if !(EVENT_ORDER.contains et) then
      some { field := "eventTypes", message := "Invalid event type \"" ++ et.str ++ "\"" }
    else none)

/-- validateCompiledRule.  The `!rule.type` guard cannot fire for the
typed RuleType (both union members are non-empty strings); the threshold
checks report a missing number for an absent field and a range violation
otherwise; the final guard rejects a rule with neither pathIncludes nor
extensions as too broad. -/
def validateCompiledRule (rule : CompiledRule) : ValidationResult :=
  let errors := validateMatchFilter rule.«match»
  let errors := errors ++
    (if rule.type = .threshold then
      (match rule.windowSeconds with
       | none => [{ field := "windowSeconds", message := "windowSeconds must be a number" }]
       | some w =>
         if w < MIN_WINDOW_SECONDS || MAX_WINDOW_SECONDS < w then
           [{ field := "windowSeconds",
              message := "windowSeconds must be between 10 and 86400" }]
         else []) ++
      (match rule.count with
       | none => [{ field := "count", message := "count must be a number" }]
       | some c =>
         if c < MIN_THRESHOLD_COUNT || MAX_THRESHOLD_COUNT < c then
           [{ field := "count", message := "count must be between 1 and 1000" }]
         else [])
    else [])
  let hasPathOrExtension :=
    (rule.«match».pathIncludes.getD []).length > 0 || (rule.«match».extensions.getD []).length > 0
  let errors := errors ++
    (if hasPathOrExtension then []
     else [{ field := "match",
             message := "Rule is too broad. Add pathIncludes or extensions to narrow scope." }])
  { valid := errors.length = 0, errors := errors }

/-! ## Compiler alignment pass (src/rules/RuleCompiler.ts) -/

/-- `/(exclude|excluding|except|ignore|ignoring)\b/i` (note: no leading
word boundary), tested on the lowercased condition. -/
def hasExclusionKeyword (condition : String) : Bool :=
  reTest
    [RE.alt [[lit "exclude"], [lit "excluding"], [lit "except"], [lit "ignore"], [lit "ignoring"]], wb]
    ((jsLower condition).data)

/-- RuleCompiler.alignRuleToIntent: recompute the intent from the raw
condition and let it override the model's output — force or strip the
threshold shape, and overwrite or strip eventTypes, extensions,
pathIncludes; pathExcludes survives only under an explicit exclusion
keyword. -/
def alignRuleToIntent (condition : String) (rule : CompiledRule) : CompiledRule :=
  let intent := extractIntent condition
  let m := rule.«match»
  let thresholdRequested := intent.count.isSome && intent.windowSeconds.isSome
  let (ty, cnt, ws) :=
    if thresholdRequested then (RuleType.threshold, intent.count, intent.windowSeconds)
    else if rule.type = .threshold then (RuleType.pattern, none, none)
    else (rule.type, rule.count, rule.windowSeconds)
  let m :=
    if intent.eventTypes.length > 0 then { m with eventTypes := some intent.eventTypes } else m
  let m :=
    if intent.extensions.length > 0 then { m with extensions := some intent.extensions }
    else if (m.extensions.getD []).length > 0 then { m with extensions := none }
    else m
  let m :=
    if intent.pathIncludes.length > 0 then
      let unique := dedupFirst ((intent.pathIncludes.map jsTrim).filter (fun v => v.length > 0))
      { m with pathIncludes := some unique }
    else if (m.pathIncludes.getD []).length > 0 then { m with pathIncludes := none }
    else m
  let m :=
    if !hasExclusionKeyword condition then
      if (m.pathExcludes.getD []).length > 0 then { m with pathExcludes := none } else m
    else m
  { type := ty, «match» := m, windowSeconds := ws, count := cnt }

/-! ## Derived definitions used by the theorems -/

/-- The spec-side reading of the filter contract (claim C2): excludes veto
by case-insensitive substring, non-empty includes require a substring hit,
non-empty extensions must contain the path's extension case-insensitively,
non-empty eventTypes must contain the event's type. -/
def filterAdmits (ev : FileEvent) (m : MatchFilter) : Prop :=
  (∀ exc ∈ m.pathExcludes.getD [], strIncludes (jsLower ev.path) (jsLower exc) = false) ∧
  (m.pathIncludes.getD [] ≠ [] →
    ∃ inc ∈ m.pathIncludes.getD [], strIncludes (jsLower ev.path) (jsLower inc) = true) ∧
  (m.extensions.getD [] ≠ [] →
    jsLower (extname ev.path) ∈ (m.extensions.getD []).map jsLower) ∧
  (m.eventTypes.getD [] ≠ [] → ev.type ∈ m.eventTypes.getD [])

/-- The trimmed, lowercased, non-empty entries of an optional array — the
data normalizeArray's output is determined by. -/
def cleanList (o : Option (List String)) : List String :=
  ((o.getD []).map (fun v => jsLower (jsTrim v))).filter (fun v => v.length > 0)

/-- Two optional arrays differing only in entry order, letter case,
surrounding whitespace or duplicates: their cleaned entry sets coincide. -/
def sameCleanSet (a b : Option (List String)) : Prop :=
  (cleanList a).toFinset = (cleanList b).toFinset

/-- The fields claim C8 asserts updateRule leaves untouched: everything
that determines a rule's identity and matching semantics. -/
def ruleSemanticsPreserved (r r' : Rule) : Prop :=
  r'.type = r.type ∧ r'.«match» = r.«match» ∧ r'.windowSeconds = r.windowSeconds ∧
  r'.count = r.count ∧ r'.id = r.id ∧ r'.createdAt = r.createdAt ∧ r'.source = r.source ∧
  r'.originalCondition = r.originalCondition ∧ r'.matchCount = r.matchCount ∧
  r'.lastMatched = r.lastMatched

/-- Fold evaluateRule over a sequence of (Date.now reading, event) pairs,
threading the rule's threshold-window entry as the engine's Map does
(an untouched entry keeps its previous value). -/
def evaluateRuleRun (rule : Rule) : List Nat → List (Nat × FileEvent) →
    List (Option RuleMatch) × List Nat
  | window, [] => ([], window)
  | window, (now, ev) :: rest =>
    let step := evaluateRule now ev rule window
    let tail := evaluateRuleRun rule (step.2.getD window) rest
    (step.1 :: tail.1, tail.2)

/-- The pattern-rule filter of claim C2's concrete examples. -/
def patternFilterExample : MatchFilter :=
  { pathIncludes := some ["src/"], extensions := some [".ts"], eventTypes := some [.created] }

/-! # Theorems -/

/-- A chain of boolean veto gates succeeds exactly when every gate is
open (the shape of matchesFilter's early returns). -/
theorem boolGateChain (a b c d : Bool) :
    ((if a = true then false
      else if b = true then false
      else if c = true then false
      else if d = true then false
      else (true : Bool)) = true) ↔ (a = false ∧ b = false ∧ c = false ∧ d = false) := by
  cases a <;> cases b <;> cases c <;> cases d <;> simp

/-- C10: when the SecurityValidator rejects the resolved event path,
evaluateEvent returns the empty match list and the only state change is
the eventsObserved increment — no rule is fetched or evaluated, no
threshold window, ring-buffer entry or rule matchCount/lastMatched is
touched, and rulesEvaluated and matches are unchanged. -/
theorem evaluateEvent_security_gate (validate : String → Bool) (limit now : Nat)
    (st : EngineState) (ev : FileEvent) (h : validate ev.path = false) :
    evaluateEvent validate limit now st ev =
      ({ st with stats := { st.stats with eventsObserved := st.stats.eventsObserved + 1 } }, []) := by
  simp [evaluateEvent, h]

/-- Witness for C10 at a concrete engine state and event. -/
theorem evaluateEvent_security_gate_witness :
    (fun _ : String => false) "src/app.ts" = false ∧
    evaluateEvent (fun _ => false) 100 7
        ⟨⟨3, 5, 2⟩, [], [("r1", [1])], []⟩ ⟨.created, "src/app.ts", 7⟩ =
      (⟨⟨4, 5, 2⟩, [], [("r1", [1])], []⟩, []) :=
  ⟨rfl, by
    rw [evaluateEvent_security_gate (fun _ => false) 100 7
      ⟨⟨3, 5, 2⟩, [], [("r1", [1])], []⟩ ⟨.created, "src/app.ts", 7⟩ rfl]⟩

/-- updateRule leaves a rule untouched or applies only the allowed keys. -/
theorem updateRule_forall₂ (rules : List Rule) (id : String) (u : RuleUpdates) :
    List.Forall₂ ruleSemanticsPreserved rules (updateRule rules id u) := by
  induction rules with
  | nil => exact List.Forall₂.nil
  | cons r rest ih =>
    by_cases h : r.id = id
    · simp only [updateRule, h, if_pos rfl]
      exact List.Forall₂.cons (by simp [ruleSemanticsPreserved, applyUpdates])
        (List.forall₂_same.mpr (fun x _ => by simp [ruleSemanticsPreserved]))
    · simp only [updateRule, h, if_neg h]
      exact List.Forall₂.cons (by simp [ruleSemanticsPreserved]) ih

/-- C8: for every stored rule list, target id and updates object, every
rule in the store after updateRule keeps its type, match filter,
windowSeconds, count, id, createdAt, source, originalCondition,
matchCount and lastMatched: updateRule copies at most name, description
and enabled, so matching semantics are immutable after creation. -/
theorem updateRule_preserves_semantics (rules : List Rule) (id : String) (u : RuleUpdates) :
    List.Forall₂ ruleSemanticsPreserved rules (updateRule rules id u) :=
  updateRule_forall₂ rules id u

/-- C6: a compiled rule whose match filter has empty-or-absent
pathIncludes and empty-or-absent extensions is rejected with an error on
the match field, whatever its other fields. -/
theorem validateCompiledRule_rejects_broad (rule : CompiledRule)
    (hpi : rule.«match».pathIncludes.getD [] = [])
    (hex : rule.«match».extensions.getD [] = []) :
    (validateCompiledRule rule).valid = false ∧
    ∃ e ∈ (validateCompiledRule rule).errors, e.field = "match" := by
  have hbroad :
      ((rule.«match».pathIncludes.getD []).length > 0 ||
        (rule.«match».extensions.getD []).length > 0) = false := by
    rw [hpi, hex]; rfl
  unfold validateCompiledRule
  rw [hbroad]
  simp only [Bool.false_eq_true, if_false]
  constructor
  · simp [List.length_append]
  · exact ⟨_, List.mem_append_right _ (List.mem_singleton_self _), rfl⟩

/-- Witness for C6 at a concrete threshold rule with an unconstrained
filter. -/
theorem validateCompiledRule_rejects_broad_witness :
    ({ type := .threshold, «match» := {}, windowSeconds := some 60,
       count := some 3 } : CompiledRule).«match».pathIncludes.getD [] = [] ∧
    (validateCompiledRule
      { type := .threshold, «match» := {}, windowSeconds := some 60, count := some 3 }).valid
        = false := by
  refine ⟨rfl, ?_⟩
  exact (validateCompiledRule_rejects_broad
    { type := .threshold, «match» := {}, windowSeconds := some 60, count := some 3 } rfl rfl).1

/-- C7: the alignment pass forces the threshold shape exactly when the
intent extracted from the condition carries both a count and a window —
overwriting both fields from the intent whatever the model emitted — and
downgrades a model-emitted threshold to a pattern (stripping count and
windowSeconds) when the intent lacks that combination. -/
theorem alignRuleToIntent_threshold_shape (condition : String) (rule : CompiledRule) :
    (((extractIntent condition).count.isSome ∧ (extractIntent condition).windowSeconds.isSome) →
      (alignRuleToIntent condition rule).type = .threshold ∧
      (alignRuleToIntent condition rule).count = (extractIntent condition).count ∧
      (alignRuleToIntent condition rule).windowSeconds = (extractIntent condition).windowSeconds) ∧
    ((¬((extractIntent condition).count.isSome ∧ (extractIntent condition).windowSeconds.isSome) ∧
        rule.type = .threshold) →
      (alignRuleToIntent condition rule).type = .pattern ∧
      (alignRuleToIntent condition rule).count = none ∧
      (alignRuleToIntent condition rule).windowSeconds = none) := by
  constructor
  · rintro ⟨hc, hw⟩
    have hreq : ((extractIntent condition).count.isSome &&
        (extractIntent condition).windowSeconds.isSome) = true := by
      rw [hc, hw]; rfl
    simp [alignRuleToIntent, hreq]
  · rintro ⟨hnot, hty⟩
    have hreq : ((extractIntent condition).count.isSome &&
        (extractIntent condition).windowSeconds.isSome) = false := by
      cases hc : (extractIntent condition).count.isSome with
      | false => rfl
      | true =>
        cases hw : (extractIntent condition).windowSeconds.isSome with
        | false => rfl
        | true => exact absurd ⟨hc, hw⟩ hnot
    simp [alignRuleToIntent, hreq, hty]

/-- Witness for C7: the first branch at the tests condition of C4 and a
pattern-emitting model, the second at a pattern condition and a
threshold-emitting model. -/
theorem alignRuleToIntent_threshold_shape_witness :
    ((alignRuleToIntent "If 3 or more files under __tests__/ are changed within 5 minutes"
        { type := .pattern, «match» := {} }).type = .threshold ∧
      (alignRuleToIntent "If 3 or more files under __tests__/ are changed within 5 minutes"
        { type := .pattern, «match» := {} }).count = some 3) ∧
    (alignRuleToIntent "Alert me when readme.md is modified"
        { type := .threshold, «match» := {}, windowSeconds := some 60, count := some 2 }).type
      = .pattern := by
  have h1 := (alignRuleToIntent_threshold_shape
    "If 3 or more files under __tests__/ are changed within 5 minutes"
    { type := .pattern, «match» := {} }).1 (by constructor <;> decide)
  have h2 := (alignRuleToIntent_threshold_shape "Alert me when readme.md is modified"
    { type := .threshold, «match» := {}, windowSeconds := some 60, count := some 2 }).2
    (by constructor
        · intro hc
          exact absurd hc.1 (by decide)
        · rfl)
  refine ⟨⟨h1.1, ?_⟩, h2.1⟩
  rw [h1.2.1]
  decide

/-- C4: on the exact condition "If 3 or more files under __tests__/ are
changed within 5 minutes", extractIntent yields count 3, a 300-second
window (5 minutes), and a pathIncludes list containing the normalized
fragment "__tests__/". -/
theorem extractIntent_tests_example :
    (extractIntent "If 3 or more files under __tests__/ are changed within 5 minutes").count
        = some 3 ∧
    (extractIntent "If 3 or more files under __tests__/ are changed within 5 minutes").windowSeconds
        = some 300 ∧
    "__tests__/" ∈
      (extractIntent "If 3 or more files under __tests__/ are changed within 5 minutes").pathIncludes := by
  refine ⟨by decide, by decide, ?_⟩
  have h : (extractIntent "If 3 or more files under __tests__/ are changed within 5 minutes").pathIncludes
      = ["__tests__/"] := by decide
  rw [h]
  exact List.mem_singleton_self _

/-- C3: a condition with a "change" synonym and no specific
create/modify/delete verb yields eventTypes [created, modified]; "change"
together with a delete synonym (and no create/modify verb) yields
[modified, deleted]; and for every condition the emitted eventTypes
follow the fixed canonical order created < modified < deleted. -/
theorem extractIntent_change_eventTypes (condition : String) :
    ((sawChange (jsLower condition).data = true ∧ sawDelete (jsLower condition).data = false ∧
      sawCreate (jsLower condition).data = false ∧ sawModify (jsLower condition).data = false) →
      (extractIntent condition).eventTypes = [.created, .modified]) ∧
    ((sawChange (jsLower condition).data = true ∧ sawDelete (jsLower condition).data = true ∧
      sawCreate (jsLower condition).data = false ∧ sawModify (jsLower condition).data = false) →
      (extractIntent condition).eventTypes = [.modified, .deleted]) ∧
    (extractIntent condition).eventTypes.Sublist EVENT_ORDER := by
  refine ⟨?_, ?_, ?_⟩
  · rintro ⟨hc, hd, hcr, hm⟩
    simp only [extractIntent]
    rw [hc, hd, hcr, hm]
    decide
  · rintro ⟨hc, hd, hcr, hm⟩
    simp only [extractIntent]
    rw [hc, hd, hcr, hm]
    decide
  · simp only [extractIntent]
    exact List.filter_sublist _

/-- Witness for C3 at two concrete conditions, one per synonym mix. -/
theorem extractIntent_change_eventTypes_witness :
    (extractIntent "alert when files change").eventTypes = [.created, .modified] ∧
    (extractIntent "alert when files change or get deleted").eventTypes
      = [.modified, .deleted] :=
  ⟨(extractIntent_change_eventTypes "alert when files change").1
      ⟨by decide, by decide, by decide, by decide⟩,
   (extractIntent_change_eventTypes "alert when files change or get deleted").2.1
      ⟨by decide, by decide, by decide, by decide⟩⟩

/-- The component-wise characterization of a single filter evaluation. -/
theorem matchesFilter_iff (ev : FileEvent) (m : MatchFilter) :
    matchesFilter ev m = true ↔ filterAdmits ev m := by
  unfold matchesFilter filterAdmits
  rw [boolGateChain]
  have e1 : ((m.pathExcludes.getD []).any
        (fun exc => strIncludes (jsLower ev.path) (jsLower exc))) = false ↔
      (∀ exc ∈ m.pathExcludes.getD [], strIncludes (jsLower ev.path) (jsLower exc) = false) := by
    rw [List.any_eq_false]
    constructor
    · intro h exc hm
      have := h exc hm
      simpa using this
    · intro h exc hm
      simp [h exc hm]
  have e2 : (decide ((m.pathIncludes.getD []).length > 0) &&
        !(m.pathIncludes.getD []).any
          (fun inc => strIncludes (jsLower ev.path) (jsLower inc))) = false ↔
      (m.pathIncludes.getD [] ≠ [] →
        ∃ inc ∈ m.pathIncludes.getD [], strIncludes (jsLower ev.path) (jsLower inc) = true) := by
    constructor
    · intro h hne
      rcases Bool.and_eq_false_iff.mp h with h | h
      · exact absurd (List.length_pos.mpr hne) (decide_eq_false_iff_not.mp h)
      · have : (m.pathIncludes.getD []).any
            (fun inc => strIncludes (jsLower ev.path) (jsLower inc)) = true := by
          simpa using h
        exact List.any_eq_true.mp this
    · intro h
      by_cases hne : m.pathIncludes.getD [] = []
      · rw [Bool.and_eq_false_iff]
        left
        simp [hne]
      · rw [Bool.and_eq_false_iff]
        right
        have := List.any_eq_true.mpr (h hne)
        simp [this]
  have e3 : (decide ((m.extensions.getD []).length > 0) &&
        !((m.extensions.getD []).map jsLower).contains (jsLower (extname ev.path))) = false ↔
      (m.extensions.getD [] ≠ [] →
        jsLower (extname ev.path) ∈ (m.extensions.getD []).map jsLower) := by
    constructor
    · intro h hne
      rcases Bool.and_eq_false_iff.mp h with h | h
      · exact absurd (List.length_pos.mpr hne) (decide_eq_false_iff_not.mp h)
      · have hc : ((m.extensions.getD []).map jsLower).contains (jsLower (extname ev.path)) = true := by
          simpa using h
        simpa [List.elem_eq_mem] using hc
    · intro h
      by_cases hne : m.extensions.getD [] = []
      · rw [Bool.and_eq_false_iff]; left; simp [hne]
      · rw [Bool.and_eq_false_iff]; right
        have := h hne
        simp [List.elem_eq_mem, this]
  have e4 : (decide ((m.eventTypes.getD []).length > 0) &&
        !(m.eventTypes.getD []).contains ev.type) = false ↔
      (m.eventTypes.getD [] ≠ [] → ev.type ∈ m.eventTypes.getD []) := by
    constructor
    · intro h hne
      rcases Bool.and_eq_false_iff.mp h with h | h
      · exact absurd (List.length_pos.mpr hne) (decide_eq_false_iff_not.mp h)
      · have hc : (m.eventTypes.getD []).contains ev.type = true := by simpa using h
        simpa [List.elem_eq_mem] using hc
    · intro h
      by_cases hne : m.eventTypes.getD [] = []
      · rw [Bool.and_eq_false_iff]; left; simp [hne]
      · rw [Bool.and_eq_false_iff]; right
        have := h hne
        simp [List.elem_eq_mem, this]
  rw [e1, e2, e3, e4]

/-- C2: matchesFilter returns true iff no exclude fragment occurs
case-insensitively in the path, some include fragment occurs when the
include list is non-empty, the path's extension is case-insensitively
among the extensions when that list is non-empty, and the event type is
listed when eventTypes is non-empty — absent or empty fields impose no
constraint.  In particular the pattern filter {pathIncludes:["src/"],
extensions:[".ts"], eventTypes:["created"]} admits a created src/app.ts
and rejects a modified src/app.ts and a created lib/app.ts. -/
theorem matchesFilter_characterization :
    (∀ (ev : FileEvent) (m : MatchFilter), matchesFilter ev m = true ↔ filterAdmits ev m) ∧
    matchesFilter ⟨.created, "src/app.ts", 0⟩ patternFilterExample = true ∧
    matchesFilter ⟨.modified, "src/app.ts", 0⟩ patternFilterExample = false ∧
    matchesFilter ⟨.created, "lib/app.ts", 0⟩ patternFilterExample = false :=
  ⟨matchesFilter_iff, by decide, by decide, by decide⟩

/-- A qualifying event on a threshold rule below the count: the timestamp
is pushed, nothing older than the window is pruned, and the rule does not
fire. -/
theorem evalRule_nofire (rule : Rule) (W N : Nat)
    (hty : rule.type = .threshold) (hW : rule.windowSeconds = some W) (hN : rule.count = some N)
    (now : Nat) (ev : FileEvent) (window : List Nat)
    (hm : matchesFilter ev rule.«match» = true)
    (hkeep : ∀ t ∈ window, now - t ≤ W * 1000)
    (hlt : window.length + 1 < N) :
    evaluateRule now ev rule window = (none, some (window ++ [now])) := by
  have hfilt : (window ++ [now]).filter (fun t => decide (now - t ≤ W * 1000)) = window ++ [now] := by
    rw [List.filter_eq_self]
    intro t ht
    rcases List.mem_append.mp ht with h | h
    · exact decide_eq_true (hkeep t h)
    · simp only [List.mem_singleton] at h
      subst h
      simp
  unfold evaluateRule
  rw [hm]
  simp only [Bool.not_true, Bool.false_eq_true, if_false, hty, hW, hN, Option.getD_some]
  rw [hfilt]
  rw [if_neg (by simp only [List.length_append, List.length_singleton]; omega)]

/-- A qualifying event on a threshold rule reaching the count: the rule
fires and the window entry is reset to the empty list. -/
theorem evalRule_fire (rule : Rule) (W N : Nat)
    (hty : rule.type = .threshold) (hW : rule.windowSeconds = some W) (hN : rule.count = some N)
    (now : Nat) (ev : FileEvent) (window : List Nat)
    (hm : matchesFilter ev rule.«match» = true)
    (hkeep : ∀ t ∈ window, now - t ≤ W * 1000)
    (hge : N ≤ window.length + 1) :
    ∃ rm, evaluateRule now ev rule window = (some rm, some []) := by
  have hfilt : (window ++ [now]).filter (fun t => decide (now - t ≤ W * 1000)) = window ++ [now] := by
    rw [List.filter_eq_self]
    intro t ht
    rcases List.mem_append.mp ht with h | h
    · exact decide_eq_true (hkeep t h)
    · simp only [List.mem_singleton] at h
      subst h
      simp
  unfold evaluateRule
  rw [hm]
  simp only [Bool.not_true, Bool.false_eq_true, if_false, hty, hW, hN, Option.getD_some]
  rw [hfilt]
  rw [if_pos (by simp only [List.length_append, List.length_singleton]; omega)]
  exact ⟨_, rfl⟩

/-- Window-threading induction: starting from any retained window, a run
of qualifying events that completes the count inside the window fires
exactly on its last event and leaves the window empty. -/
theorem evaluateRuleRun_threshold_aux (rule : Rule) (W N : Nat)
    (hty : rule.type = .threshold) (hW : rule.windowSeconds = some W) (hN : rule.count = some N) :
    ∀ (events : List (Nat × FileEvent)) (window : List Nat),
      events ≠ [] →
      window.length + events.length = N →
      (∀ p ∈ events, matchesFilter p.2 rule.«match» = true) →
      (∀ t ∈ window ++ events.map Prod.fst, ∀ q ∈ events, q.1 - t ≤ W * 1000) →
      (evaluateRuleRun rule window events).1.map Option.isSome
          = List.replicate (events.length - 1) false ++ [true] ∧
      (evaluateRuleRun rule window events).2 = [] := by
  intro events
  induction events with
  | nil => intro _ h; exact absurd rfl h
  | cons e rest ih =>
    intro window _ hlen hmatch hwin
    obtain ⟨tnow, tev⟩ := e
    have hm : matchesFilter tev rule.«match» = true := hmatch (tnow, tev) (List.mem_cons_self _ _)
    have hkeep : ∀ t ∈ window, tnow - t ≤ W * 1000 := by
      intro t ht
      exact hwin t (List.mem_append_left _ ht) (tnow, tev) (List.mem_cons_self _ _)
    cases rest with
    | nil =>
      have hge : N ≤ window.length + 1 := by
        simp only [List.length_cons, List.length_nil] at hlen
        omega
      obtain ⟨rm, hev⟩ := evalRule_fire rule W N hty hW hN tnow tev window hm hkeep hge
      simp [evaluateRuleRun, hev]
    | cons r rs =>
      have hlt : window.length + 1 < N := by
        simp only [List.length_cons] at hlen
        omega
      have hev := evalRule_nofire rule W N hty hW hN tnow tev window hm hkeep hlt
      have hrec := ih (window ++ [tnow])
        (by simp)
        (by
          simp only [List.length_append, List.length_cons, List.length_singleton,
            List.length_nil] at hlen ⊢
          omega)
        (by intro p hp; exact hmatch p (List.mem_cons_of_mem _ hp))
        (by
          intro u hu q hq
          rcases List.mem_append.mp hu with h | h
          · rcases List.mem_append.mp h with h2 | h2
            · exact hwin u (List.mem_append_left _ h2) q (List.mem_cons_of_mem _ hq)
            · simp only [List.mem_singleton] at h2
              rw [h2]
              exact hwin tnow (List.mem_append_right _ (by simp)) q (List.mem_cons_of_mem _ hq)
          · exact hwin u
              (List.mem_append_right _ (by simp only [List.map_cons]; exact List.mem_cons_of_mem _ h))
              q (List.mem_cons_of_mem _ hq))
      have hstep : evaluateRuleRun rule window ((tnow, tev) :: r :: rs)
          = ((evaluateRule tnow tev rule window).1 ::
              (evaluateRuleRun rule ((evaluateRule tnow tev rule window).2.getD window) (r :: rs)).1,
             (evaluateRuleRun rule ((evaluateRule tnow tev rule window).2.getD window) (r :: rs)).2) := rfl
      rw [hev] at hstep
      simp only [Option.getD_some] at hstep
      constructor
      · rw [hstep]
        simp only [List.map_cons, Option.isSome_none, hrec.1]
        have h1 : ((tnow, tev) :: r :: rs).length - 1 = rs.length + 1 := by simp
        have h2 : (r :: rs).length - 1 = rs.length := by simp
        rw [h1, h2, List.replicate_succ, List.cons_append]
      · rw [hstep]
        exact hrec.2


/-- C1: an enabled threshold rule with count N and window W, fed N
qualifying events (each passing the rule's match filter) whose evaluation
timestamps all lie within W seconds of one another — in particular within
W seconds of the earliest retained timestamp — does not fire on the first
N-1 events, fires exactly on the N-th, and resets its window list to
empty on firing, so a further N fresh qualifying events are needed before
it can fire again (restart this very theorem from the empty window). -/
theorem threshold_fires_on_nth (rule : Rule) (W N : Nat)
    (hty : rule.type = .threshold) (hW : rule.windowSeconds = some W) (hN : rule.count = some N)
    (events : List (Nat × FileEvent)) (hne : events ≠ []) (hlen : events.length = N)
    (hmatch : ∀ p ∈ events, matchesFilter p.2 rule.«match» = true)
    (hwin : ∀ p ∈ events, ∀ q ∈ events, q.1 - p.1 ≤ W * 1000) :
    (evaluateRuleRun rule [] events).1.map Option.isSome
        = List.replicate (N - 1) false ++ [true] ∧
    (evaluateRuleRun rule [] events).2 = [] := by
  have h := evaluateRuleRun_threshold_aux rule W N hty hW hN events []
    hne (by simpa using hlen)
    hmatch
    (by
      intro t ht q hq
      simp only [List.nil_append] at ht
      obtain ⟨p, hp, rfl⟩ := List.mem_map.mp ht
      exact hwin p hp q hq)
  rw [hlen] at h
  exact h

/-- Witness for C1: count 3, window 60 s, three qualifying events inside
2 seconds; the rule fires exactly on the third and the window is empty. -/
theorem threshold_fires_on_nth_witness :
    (evaluateRuleRun
        { id := "r1", name := "n", description := "", enabled := true, createdAt := 0,
          matchCount := 0, type := .threshold, «match» := {}, source := .manual,
          windowSeconds := some 60, count := some 3 }
        []
        [(0, ⟨.created, "a.ts", 0⟩), (1000, ⟨.created, "b.ts", 1000⟩),
         (2000, ⟨.created, "c.ts", 2000⟩)]).1.map Option.isSome
      = List.replicate (3 - 1) false ++ [true] ∧
    (evaluateRuleRun
        { id := "r1", name := "n", description := "", enabled := true, createdAt := 0,
          matchCount := 0, type := .threshold, «match» := {}, source := .manual,
          windowSeconds := some 60, count := some 3 }
        []
        [(0, ⟨.created, "a.ts", 0⟩), (1000, ⟨.created, "b.ts", 1000⟩),
         (2000, ⟨.created, "c.ts", 2000⟩)]).2 = [] :=
  threshold_fires_on_nth
    { id := "r1", name := "n", description := "", enabled := true, createdAt := 0,
      matchCount := 0, type := .threshold, «match» := {}, source := .manual,
      windowSeconds := some 60, count := some 3 }
    60 3 rfl rfl rfl
    [(0, ⟨.created, "a.ts", 0⟩), (1000, ⟨.created, "b.ts", 1000⟩),
     (2000, ⟨.created, "c.ts", 2000⟩)]
    (by decide) (by decide) (by decide) (by decide)

/-- Membership in the dedup worker: present in the remainder and not already seen. -/
theorem mem_dedupFirstAux {α : Type} [DecidableEq α] (l : List α) :
    ∀ (seen : List α) (a : α), a ∈ dedupFirstAux seen l ↔ a ∈ l ∧ a ∉ seen := by
  induction l with
  | nil => intro seen a; simp [dedupFirstAux]
  | cons x xs ih =>
    intro seen a
    by_cases hx : x ∈ seen
    · rw [dedupFirstAux, if_pos hx, ih]
      constructor
      · rintro ⟨h1, h2⟩
        exact ⟨List.mem_cons_of_mem _ h1, h2⟩
      · rintro ⟨h1, h2⟩
        rcases List.mem_cons.mp h1 with rfl | h1
        · exact absurd hx h2
        · exact ⟨h1, h2⟩
    · rw [dedupFirstAux, if_neg hx]
      simp only [List.mem_cons, ih]
      constructor
      · rintro (rfl | ⟨h1, h2⟩)
        · exact ⟨Or.inl rfl, hx⟩
        · exact ⟨Or.inr h1, fun hs => h2 (Or.inr hs)⟩
      · rintro ⟨h1, h2⟩
        by_cases hax : a = x
        · exact Or.inl hax
        · rcases h1 with rfl | h1
          · exact absurd rfl hax
          · exact Or.inr ⟨h1, fun hs => by
              rcases hs with rfl | hs
              · exact hax rfl
              · exact h2 hs⟩

/-- The dedup worker never emits an element twice. -/
theorem nodup_dedupFirstAux {α : Type} [DecidableEq α] (l : List α) :
    ∀ seen : List α, (dedupFirstAux seen l).Nodup := by
  induction l with
  | nil => intro seen; simp [dedupFirstAux]
  | cons x xs ih =>
    intro seen
    by_cases hx : x ∈ seen
    · rw [dedupFirstAux, if_pos hx]; exact ih seen
    · rw [dedupFirstAux, if_neg hx]
      refine List.nodup_cons.mpr ⟨?_, ih _⟩
      intro hmem
      exact ((mem_dedupFirstAux xs _ x).mp hmem).2 (List.mem_cons_self _ _)

/-- dedupFirst preserves membership. -/
theorem mem_dedupFirst {α : Type} [DecidableEq α] (l : List α) (a : α) :
    a ∈ dedupFirst l ↔ a ∈ l := by
  rw [dedupFirst, mem_dedupFirstAux]
  simp

/-- dedupFirst yields a duplicate-free list. -/
theorem nodup_dedupFirst {α : Type} [DecidableEq α] (l : List α) : (dedupFirst l).Nodup :=
  nodup_dedupFirstAux l []

/-- normalizeArray in terms of the cleaned entry list: empty collapses to
none, otherwise the sorted deduplication is returned. -/
theorem normalizeArray_canon (o : Option (List String)) :
    normalizeArray o = if cleanList o = [] then none
      else some (List.insertionSort (· ≤ ·) (dedupFirst (cleanList o))) := by
  cases o with
  | none => rfl
  | some vs =>
    show (if (cleanList (some vs)).length = 0 then none else _) = _
    by_cases h : cleanList (some vs) = []
    · rw [if_pos (by rw [h]; rfl), if_pos h]
    · rw [if_neg (fun hl => h (List.length_eq_zero.mp hl)), if_neg h]
      rfl

/-- normalizeArray depends only on the set of cleaned entries: sorting a
duplicate-free list is a canonical form of that set. -/
theorem normalizeArray_eq_of_sameCleanSet (a b : Option (List String))
    (h : sameCleanSet a b) : normalizeArray a = normalizeArray b := by
  have hmem : ∀ s, s ∈ cleanList a ↔ s ∈ cleanList b := by
    intro s
    rw [← List.mem_toFinset, ← List.mem_toFinset (l := cleanList b), h]
  rw [normalizeArray_canon, normalizeArray_canon]
  by_cases ha : cleanList a = []
  · have hb : cleanList b = [] := by
      rw [List.eq_nil_iff_forall_not_mem]
      intro s hs
      rw [← hmem s, ha] at hs
      exact absurd hs (List.not_mem_nil s)
    rw [if_pos ha, if_pos hb]
  · have hb : cleanList b ≠ [] := by
      intro hb
      apply ha
      rw [List.eq_nil_iff_forall_not_mem]
      intro s hs
      rw [hmem s, hb] at hs
      exact absurd hs (List.not_mem_nil s)
    rw [if_neg ha, if_neg hb]
    congr 1
    have nda : (List.insertionSort (· ≤ ·) (dedupFirst (cleanList a))).Nodup :=
      ((List.perm_insertionSort _ _).nodup_iff).mpr (nodup_dedupFirst _)
    have ndb : (List.insertionSort (· ≤ ·) (dedupFirst (cleanList b))).Nodup :=
      ((List.perm_insertionSort _ _).nodup_iff).mpr (nodup_dedupFirst _)
    have hmems : ∀ s, s ∈ List.insertionSort (· ≤ ·) (dedupFirst (cleanList a)) ↔
        s ∈ List.insertionSort (· ≤ ·) (dedupFirst (cleanList b)) := by
      intro s
      rw [(List.perm_insertionSort _ _).mem_iff, (List.perm_insertionSort _ _).mem_iff,
        mem_dedupFirst, mem_dedupFirst]
      exact hmem s
    exact List.eq_of_perm_of_sorted ((List.perm_ext_iff_of_nodup nda ndb).mpr hmems)
      (List.sorted_insertionSort _ _) (List.sorted_insertionSort _ _)


/-- C5: two compiled rules that differ only in ordering, letter case,
surrounding whitespace or duplicate entries of the arrays inside their
match filters — i.e. whose cleaned entry sets coincide per array field —
and agree on type, windowSeconds and count, receive identical canonical
signatures: the JSON of the type, each match array sorted, lowercased and
deduplicated (omitted when empty), and windowSeconds/count defaulted to
null. -/
theorem ruleSignature_normalization_invariant (X Y : CompiledRule)
    (hty : X.type = Y.type) (hws : X.windowSeconds = Y.windowSeconds) (hcnt : X.count = Y.count)
    (h1 : sameCleanSet X.«match».pathIncludes Y.«match».pathIncludes)
    (h2 : sameCleanSet X.«match».pathExcludes Y.«match».pathExcludes)
    (h3 : sameCleanSet X.«match».extensions Y.«match».extensions)
    (h4 : sameCleanSet (X.«match».eventTypes.map (fun l => l.map EventType.str))
        (Y.«match».eventTypes.map (fun l => l.map EventType.str))) :
    ruleSignatureFromCompiled X = ruleSignatureFromCompiled Y := by
  unfold ruleSignatureFromCompiled
  dsimp only
  rw [hty, hws, hcnt,
    normalizeArray_eq_of_sameCleanSet _ _ h1, normalizeArray_eq_of_sameCleanSet _ _ h2,
    normalizeArray_eq_of_sameCleanSet _ _ h3, normalizeArray_eq_of_sameCleanSet _ _ h4]

/-- Witness for C5: reordered, re-cased, duplicated and re-whitespaced
arrays produce the same signature string. -/
theorem ruleSignature_normalization_invariant_witness :
    ruleSignatureFromCompiled
      { type := .pattern,
        «match» := { pathIncludes := some ["src/", "Lib/"], extensions := some [".TS", " .ts "],
                     eventTypes := some [.created, .modified] } } =
    ruleSignatureFromCompiled
      { type := .pattern,
        «match» := { pathIncludes := some ["lib/", "src/", "src/"], extensions := some [".ts"],
                     eventTypes := some [.modified, .created, .created] } } :=
  ruleSignature_normalization_invariant _ _ rfl rfl rfl
    (by unfold sameCleanSet; decide) (by unfold sameCleanSet; decide)
    (by unfold sameCleanSet; decide) (by unfold sameCleanSet; decide)

/-- A settled save is not pending. -/
theorem isSettled_ne_pending {s : JobStatus} (h : isSettled s = true) : s ≠ .pending := by
  cases s <;> simp_all [isSettled]

/-- Queue invariant: in every reachable queue state, a save that has
started (is no longer pending) has every earlier-submitted save already
settled.  Induction over the reachability derivation. -/
theorem qreach_started_implies_settled (l : List JobStatus) (h : QReach l) :
    ∀ i j, i < j → ∀ s, l.get? j = some s → s ≠ .pending →
      ∀ t, l.get? i = some t → isSettled t = true := by
  induction h with
  | init =>
    intro i j _ s hs _ t _
    simp at hs
  | @step l₀ l₁ hre hstep ih =>
    intro i j hij s hs hsp t ht
    cases hstep with
    | submit =>
      rcases Nat.lt_trichotomy j l₀.length with hj | hj | hj
      · rw [List.get?_append hj] at hs
        rw [List.get?_append (Nat.lt_trans hij hj)] at ht
        exact ih i j hij s hs hsp t ht
      · subst hj
        rw [List.get?_concat_length] at hs
        exact absurd (Option.some.inj hs).symm hsp
      · rw [List.get?_eq_none.mpr (by simp; omega)] at hs
        cases hs
    | start k hpred hk =>
      have hklen : k < l₀.length := (List.get?_eq_some.mp hk).1
      by_cases hjk : j = k
      · subst hjk
        have hik : i ≠ j := Nat.ne_of_lt hij
        rw [List.get?_set_ne _ _ (fun he => hik he.symm)] at ht
        rcases hpred with rfl | ⟨s', hs', hsettled⟩
        · exact absurd hij (Nat.not_lt_zero i)
        · rcases Nat.lt_trichotomy i (j - 1) with hi | hi | hi
          · exact ih i (j - 1) hi s' hs' (isSettled_ne_pending hsettled) t ht
          · subst hi
            rw [hs'] at ht
            exact (Option.some.inj ht) ▸ hsettled
          · omega
      · rw [List.get?_set_ne _ _ (fun he => hjk he.symm)] at hs
        by_cases hik : i = k
        · subst hik
          have := ih i j hij s hs hsp .pending hk
          simp [isSettled] at this
        · rw [List.get?_set_ne _ _ (fun he => hik he.symm)] at ht
          exact ih i j hij s hs hsp t ht
    | finish k ok hk =>
      have hklen : k < l₀.length := (List.get?_eq_some.mp hk).1
      by_cases hjk : j = k
      · subst hjk
        have hik : i ≠ j := Nat.ne_of_lt hij
        rw [List.get?_set_ne _ _ (fun he => hik he.symm)] at ht
        exact ih i j hij .running hk (by simp) t ht
      · rw [List.get?_set_ne _ _ (fun he => hjk he.symm)] at hs
        by_cases hik : i = k
        · subst hik
          have hset : (l₀.set i (if ok then JobStatus.settledOk else JobStatus.settledErr)).get? i
              = some (if ok then JobStatus.settledOk else JobStatus.settledErr) := by
            rw [List.get?_set_eq]
            rw [hk]
            rfl
          rw [hset] at ht
          cases ok
          · rw [← Option.some.inj ht]; decide
          · rw [← Option.some.inj ht]; decide
        · rw [List.get?_set_ne _ _ (fun he => hik he.symm)] at ht
          exact ih i j hij s hs hsp t ht


/-- A concrete run in which the first save fails and the second still
runs to successful completion. -/
theorem qreach_err_then_ok : QReach [.settledErr, .settledOk] := by
  have h1 : QReach [JobStatus.pending] := QReach.step QReach.init (QStep.submit [])
  have h2 : QReach [JobStatus.running] :=
    QReach.step h1 (QStep.start [JobStatus.pending] 0 (Or.inl rfl) rfl)
  have h3 : QReach [JobStatus.settledErr] :=
    QReach.step h2 (QStep.finish [JobStatus.running] 0 false rfl)
  have h4 : QReach [JobStatus.settledErr, JobStatus.pending] :=
    QReach.step h3 (QStep.submit [JobStatus.settledErr])
  have h5 : QReach [JobStatus.settledErr, JobStatus.running] :=
    QReach.step h4 (QStep.start [JobStatus.settledErr, JobStatus.pending] 1
      (Or.inr ⟨JobStatus.settledErr, rfl, rfl⟩) rfl)
  exact QReach.step h5 (QStep.finish [JobStatus.settledErr, JobStatus.running] 1 true rfl)

/-- C9: rule-store saves never run in parallel.  In every reachable
state of the save queue, (1) a save that has started implies every
earlier save has settled — so execution starts in submission order, each
save waits for its predecessor's settle, and writes reach the disk in
submission order; (2) no two saves are running at once; and (3) a failed
save does not block subsequent saves: the trace where save 1 fails and
save 2 runs and completes is reachable. -/
theorem saveQueue_serialized (l : List JobStatus) (h : QReach l) :
    (∀ i j, i < j → ∀ s, l.get? j = some s → s ≠ .pending →
        ∀ t, l.get? i = some t → isSettled t = true) ∧
    (∀ i j, i < j → l.get? j = some .running → ¬(l.get? i = some .running)) ∧
    QReach [.settledErr, .settledOk] := by
  refine ⟨qreach_started_implies_settled l h, ?_, qreach_err_then_ok⟩
  intro i j hij hj hi
  have := qreach_started_implies_settled l h i j hij .running hj (by decide) .running hi
  simp [isSettled] at this

/-- Witness for C9: in the reachable state [settledErr, running] — save 1
failed, save 2 currently running — the theorem yields that save 1 had
settled before save 2 started. -/
theorem saveQueue_serialized_witness : isSettled JobStatus.settledErr = true := by
  have h1 : QReach [JobStatus.pending] := QReach.step QReach.init (QStep.submit [])
  have h2 : QReach [JobStatus.running] :=
    QReach.step h1 (QStep.start [JobStatus.pending] 0 (Or.inl rfl) rfl)
  have h3 : QReach [JobStatus.settledErr] :=
    QReach.step h2 (QStep.finish [JobStatus.running] 0 false rfl)
  have h4 : QReach [JobStatus.settledErr, JobStatus.pending] :=
    QReach.step h3 (QStep.submit [JobStatus.settledErr])
  have h5 : QReach [JobStatus.settledErr, JobStatus.running] :=
    QReach.step h4 (QStep.start [JobStatus.settledErr, JobStatus.pending] 1
      (Or.inr ⟨JobStatus.settledErr, rfl, rfl⟩) rfl)
  exact (saveQueue_serialized [JobStatus.settledErr, JobStatus.running] h5).1
    0 1 (by decide) JobStatus.running rfl (by decide) JobStatus.settledErr rfl

end Watcher
